import Mathlib

/-!
Verification of the slv_dashboard repository's core data layer against its
specification.

The development shallowly embeds, from the Python sources:

* `src/db_manager.py` — the `metrics` table (primary key `(timestamp,
  metric_name)`), `append_metrics` / `insert_metric` (INSERT OR REPLACE plus
  the 30-day retention sweep), `get_metric_history`, `get_metric_delta`,
  `get_latest_metric_value`, and the `cache` table with `get_cache` /
  `set_cache`.
* `src/cme_pdf_parser.py` — the silver-section extraction shared by
  `parse_mtd_deliveries` and `parse_last_3_days_silver`, and the date-row
  regular expression `(\d{1,2}/\d{1,2}/\d{4})\s+([0-9,]+)\s+([0-9,]+)`.
* `src/task_hourly.py` `fetch_comex_inventory` and `src/data_fetcher.py`
  `get_cme_data` — cache-fallback orchestration around a live fetch.

Modelling conventions: SQL REAL values and wall-clock hours are `ℚ`; metric
timestamps are `Nat` (ISO `YYYY-MM-DD HH:MM:SS` strings compare
lexicographically exactly as their time values, so `ORDER BY timestamp` is
order-preservingly abstracted by numeric order); document text is
`List Char`; network fetches and external parses are oracle parameters of
type `Option _` (`none` = the fetch/parse raised or returned no usable data).
JSON round-tripping through the cache is elided: the cache stores the payload
it is given.
-/

instance {ε α : Type _} [DecidableEq ε] [DecidableEq α] :
    DecidableEq (Except ε α) := fun a b =>
  match a, b with
  | .error e, .error f =>
    if h : e = f then .isTrue (by rw [h])
    else .isFalse fun hc => h (by injection hc)
  | .error _, .ok _ => .isFalse fun hc => Except.noConfusion hc
  | .ok _, .error _ => .isFalse fun hc => Except.noConfusion hc
  | .ok x, .ok y =>
    if h : x = y then .isTrue (by rw [h])
    else .isFalse fun hc => h (by injection hc)

/-- One row of the `metrics` table (`src/db_manager.py` lines 52-59):
columns `timestamp`, `metric_name`, `value`, primary key
`(timestamp, metric_name)`. -/
structure MetricRow where
  ts : Nat
  name : String
  value : ℚ
deriving DecidableEq

/-- SQLite `INSERT OR REPLACE INTO metrics` (`src/db_manager.py` lines
142-148 and 159-166): a conflicting row with the same primary key
`(timestamp, metric_name)` is deleted and the new row inserted. -/
def insertOrReplace (t : Nat) (m : String) (v : ℚ) (tbl : List MetricRow) :
    List MetricRow :=
  ⟨t, m, v⟩ :: tbl.filter fun r => !(r.ts = t && r.name = m)

/-- The retention sweep `DELETE FROM metrics WHERE timestamp < cutoff`
(`src/db_manager.py` lines 150-152): keep rows with `cutoff ≤ ts`. -/
def retentionSweep (cutoff : Nat) (tbl : List MetricRow) : List MetricRow :=
  tbl.filter fun r => cutoff ≤ r.ts

/-- Embedding of `DBManager.append_metrics` specialised to one already-numeric entry
(`src/db_manager.py` lines 117-152): INSERT OR REPLACE at the call's
timestamp, then the 30-day retention sweep (`cutoff` = now minus 30 days).
The Python-level filtering of `None`/`"N/A"`/non-numeric values happens
before a value reaches the INSERT and is elided here. -/
def appendMetric (cutoff t : Nat) (m : String) (v : ℚ)
    (tbl : List MetricRow) : List MetricRow :=
  retentionSweep cutoff (insertOrReplace t m v tbl)

/-- Insertion of a row into a list sorted by strictly descending timestamp. -/
def insertDesc (r : MetricRow) : List MetricRow → List MetricRow
  | [] => [r]
  | s :: rest => if s.ts ≤ r.ts then r :: s :: rest else s :: insertDesc r rest

/-- Sort rows by descending timestamp (insertion sort).  Within a single
metric the primary key makes timestamps pairwise distinct, so this is the
unique order produced by `ORDER BY timestamp DESC`. -/
def sortDesc : List MetricRow → List MetricRow
  | [] => []
  | r :: rest => insertDesc r (sortDesc rest)

/-- Insertion of a row into a list sorted by ascending timestamp. -/
def insertAsc (r : MetricRow) : List MetricRow → List MetricRow
  | [] => [r]
  | s :: rest => if r.ts ≤ s.ts then r :: s :: rest else s :: insertAsc r rest

/-- Sort rows by ascending timestamp (insertion sort), as produced by
`ORDER BY timestamp ASC`. -/
def sortAsc : List MetricRow → List MetricRow
  | [] => []
  | r :: rest => insertAsc r (sortAsc rest)

/-- Embedding of `SELECT value FROM metrics WHERE metric_name = ? ORDER BY timestamp DESC`
(`src/db_manager.py` lines 195-202). -/
def selectValuesDesc (tbl : List MetricRow) (m : String) : List ℚ :=
  (sortDesc (tbl.filter fun r => r.name = m)).map (·.value)

/-- The backward walk of `DBManager.get_metric_delta` (`src/db_manager.py`
lines 212-217): scan earlier values in descending time order; at the first
value different from `current` return `current - previous`; if the scan
exhausts, every historical value equals `current` and the result is `0.0`. -/
def findDelta (current : ℚ) : List ℚ → ℚ
  | [] => 0
  | p :: rest => if p ≠ current then current - p else findDelta current rest

/-- The value-list part of `DBManager.get_metric_delta` (`src/db_manager.py`
lines 204-217): `None` with fewer than two rows, otherwise the backward
walk from the most recent value. -/
def deltaOfRows : List ℚ → Option ℚ
  | [] => none
  | [_] => none
  | current :: p :: rest => some (findDelta current (p :: rest))

/-- Database state: the `metrics` table contents plus a fault flag modelling
a storage-layer error (`sqlite3` raising on connect/execute).  The Python
read methods run their queries with no `try`/`except`. -/
structure DBState where
  metrics : List MetricRow
  fault : Bool

/-- Error message standing for a raised `sqlite3` exception. -/
def dbErr : String := "sqlite3 error"

/-- Embedding of `DBManager.get_metric_delta` (`src/db_manager.py` lines 189-217): run the
descending query and the backward walk.  A storage fault propagates (there is
no exception handler in the Python method). -/
def getMetricDelta (db : DBState) (m : String) : Except String (Option ℚ) :=
  if db.fault then .error dbErr
  else .ok (deltaOfRows (selectValuesDesc db.metrics m))

/-- Embedding of `DBManager.get_metric_history` (`src/db_manager.py` lines 168-187):
`SELECT timestamp, value WHERE metric_name = ? AND timestamp >= cutoff ORDER
BY timestamp ASC`, returned as (timestamp, value) pairs.  A storage fault
propagates (no exception handler). -/
def getMetricHistory (db : DBState) (m : String) (cutoff : Nat) :
    Except String (List (Nat × ℚ)) :=
  if db.fault then .error dbErr
  else .ok ((sortAsc (db.metrics.filter
    fun r => r.name = m && cutoff ≤ r.ts)).map fun r => (r.ts, r.value))

/-- Embedding of `DBManager.get_latest_metric_value` (`src/db_manager.py` lines 219-227):
first row of the descending query, or `None`.  A storage fault propagates
(no exception handler). -/
def getLatestMetricValue (db : DBState) (m : String) :
    Except String (Option ℚ) :=
  if db.fault then .error dbErr
  else .ok (selectValuesDesc db.metrics m).head?

/-- Lookup of a metric row by primary key. -/
def lookupMetric (t : Nat) (m : String) (tbl : List MetricRow) : Option ℚ :=
  (tbl.find? fun r => r.ts = t && r.name = m).map (·.value)

theorem findDelta_spec (cur p : ℚ) :
    ∀ (k : Nat) (l : List ℚ), (∀ j < k, l[j]? = some cur) →
      l[k]? = some p → p ≠ cur → findDelta cur l = cur - p := by
  intro k
  induction k with
  | zero =>
    intro l _ hk hne
    cases l with
    | nil => simp at hk
    | cons a rest =>
      simp only [List.getElem?_cons_zero, Option.some.injEq] at hk
      subst hk
      simp [findDelta, hne]
  | succ n ih =>
    intro l hrep hk hne
    cases l with
    | nil => simp at hk
    | cons a rest =>
      have h0 : a = cur := by
        have := hrep 0 (Nat.succ_pos n)
        simpa using this
      subst h0
      have : findDelta a (a :: rest) = findDelta a rest := by
        simp [findDelta]
      rw [this]
      refine ih rest ?_ (by simpa using hk) hne
      intro j hj
      have := hrep (j + 1) (by omega)
      simpa using this

theorem findDelta_all_eq (cur : ℚ) :
    ∀ l : List ℚ, (∀ v ∈ l, v = cur) → findDelta cur l = 0 := by
  intro l
  induction l with
  | nil => simp [findDelta]
  | cons a rest ih =>
    intro h
    have ha : a = cur := h a (by simp)
    subst ha
    have : findDelta a (a :: rest) = findDelta a rest := by simp [findDelta]
    rw [this]
    exact ih fun v hv => h v (List.mem_cons_of_mem _ hv)

/-- The observations of the spec's delta example: `[10 @t1, 10 @t2, 10 @t3,
15 @t4]` for metric `m`, with `t1 < t2 < t3 < t4`. -/
def deltaExample : List MetricRow :=
  [⟨1, "m", 10⟩, ⟨2, "m", 10⟩, ⟨3, "m", 10⟩, ⟨4, "m", 15⟩]

/-- The observations of the spec's all-equal example: `[7 @t1, 7 @t2]`. -/
def allEqualExample : List MetricRow := [⟨1, "m", 7⟩, ⟨2, "m", 7⟩]

/-- C1: for every metric `m` whose stored observations, read in descending
timestamp order, start with value `cur` and whose earliest strictly
different value `p` sits at position `i` (every strictly earlier historical
position holding a repeat of `cur`), `get_metric_delta` returns
`cur - p`.  In particular (witness) the observations
`[10 @t1, 10 @t2, 10 @t3, 15 @t4]` give delta `15 - 10 = 5`. -/
theorem getMetricDelta_skips_repeats (tbl : List MetricRow) (m : String)
    (i : Nat) (cur p : ℚ)
    (h0 : (selectValuesDesc tbl m)[0]? = some cur)
    (h1 : 1 ≤ i)
    (hi : (selectValuesDesc tbl m)[i]? = some p)
    (hp : p ≠ cur)
    (hrep : ∀ j, 1 ≤ j → j < i → (selectValuesDesc tbl m)[j]? = some cur) :
    getMetricDelta ⟨tbl, false⟩ m = .ok (some (cur - p)) := by
  obtain ⟨k, rfl⟩ : ∃ k, i = k + 1 := ⟨i - 1, by omega⟩
  unfold getMetricDelta
  simp only [Bool.false_eq_true, if_false]
  cases hv : selectValuesDesc tbl m with
  | nil => rw [hv] at h0; simp at h0
  | cons a rest =>
    rw [hv] at h0 hi hrep
    simp only [List.getElem?_cons_zero, Option.some.injEq] at h0
    subst h0
    simp only [List.getElem?_cons_succ] at hi
    cases rest with
    | nil => simp at hi
    | cons b rrest =>
      have hd : deltaOfRows (a :: b :: rrest) = some (findDelta a (b :: rrest)) :=
        rfl
      rw [hd]
      have := findDelta_spec a p k (b :: rrest) ?_ hi hp
      · rw [this]
      · intro j hj
        have := hrep (j + 1) (by omega) (by omega)
        simpa using this

/-- Witness for C1: the spec's own example, `delta(m) == 5`. -/
theorem getMetricDelta_skips_repeats_example :
    getMetricDelta ⟨deltaExample, false⟩ "m" = .ok (some 5) := by
  have h := getMetricDelta_skips_repeats deltaExample "m" 1 15 10
    (by decide) (by decide) (by decide) (by decide)
    (fun j hj hj2 => absurd (Nat.lt_of_lt_of_le hj2 hj) (by omega))
  have e : (15 : ℚ) - 10 = 5 := by norm_num
  rw [e] at h
  exact h

/-- C2 counterexample: the stored observations `[7 @t1, 7 @t2]` hold fewer
than 2 distinct values, yet `get_metric_delta` returns `0.0`, not `None`,
so "returns None when fewer than 2 distinct values exist" is false of the
code (which tests the row count, not the distinct-value count). -/
theorem getMetricDelta_distinct_values_cex :
    (selectValuesDesc allEqualExample "m").dedup.length < 2 ∧
      getMetricDelta ⟨allEqualExample, false⟩ "m" = .ok (some 0) := by
  constructor
  · decide
  · decide

/-- C2 (amended): `get_metric_delta` returns `None` when fewer than 2
stored observations exist for the metric (in particular for an unknown
metric with no rows), and returns `0.0` when there are at least 2
observations and every stored value equals the most recent one. -/
theorem getMetricDelta_none_or_zero (tbl : List MetricRow) (m : String) :
    ((selectValuesDesc tbl m).length < 2 →
      getMetricDelta ⟨tbl, false⟩ m = .ok none) ∧
    (∀ cur, (selectValuesDesc tbl m)[0]? = some cur →
      2 ≤ (selectValuesDesc tbl m).length →
      (∀ v ∈ selectValuesDesc tbl m, v = cur) →
      getMetricDelta ⟨tbl, false⟩ m = .ok (some 0)) := by
  unfold getMetricDelta
  simp only [Bool.false_eq_true, if_false]
  constructor
  · intro hlen
    cases hv : selectValuesDesc tbl m with
    | nil => rfl
    | cons a rest =>
      cases rest with
      | nil => rfl
      | cons b rrest => rw [hv] at hlen; simp at hlen; omega
  · intro cur h0 hlen hall
    cases hv : selectValuesDesc tbl m with
    | nil => rw [hv] at hlen; simp at hlen
    | cons a rest =>
      rw [hv] at h0 hall
      simp only [List.getElem?_cons_zero, Option.some.injEq] at h0
      subst h0
      cases rest with
      | nil => rw [hv] at hlen; simp at hlen
      | cons b rrest =>
        have hd : deltaOfRows (a :: b :: rrest) =
            some (findDelta a (b :: rrest)) := rfl
        rw [hd, findDelta_all_eq a (b :: rrest)
          fun v hv2 => hall v (List.mem_cons_of_mem _ hv2)]

/-- Witness for C2 (amended): `delta("unknown_metric")` on an empty store is
`None`, and the spec's all-equal example `[7 @t1, 7 @t2]` gives `0.0`. -/
theorem getMetricDelta_none_or_zero_example :
    getMetricDelta ⟨[], false⟩ "unknown_metric" = .ok none ∧
      getMetricDelta ⟨allEqualExample, false⟩ "m" = .ok (some 0) :=
  ⟨(getMetricDelta_none_or_zero [] "unknown_metric").1 (by decide),
    (getMetricDelta_none_or_zero allEqualExample "m").2 7
      (by decide) (by decide) (by decide)⟩

theorem filter_chain_collapse (p q : MetricRow → Bool) (l : List MetricRow) :
    List.filter q (List.filter p (List.filter q (List.filter p l))) =
      List.filter q (List.filter p l) := by
  simp only [List.filter_filter]
  refine List.filter_congr fun a _ => ?_
  cases p a <;> cases q a <;> rfl

/-- C4: re-running `append_metrics` with the identical `(metric, value,
timestamp)` leaves the metrics table — hence `history(m)` — unchanged in
length and content, and a later write at the same `(timestamp, metric_name)`
primary key replaces the stored value without adding a row. -/
theorem appendMetric_idempotent_replace (cutoff t : Nat) (m : String)
    (v w : ℚ) (tbl : List MetricRow) :
    appendMetric cutoff t m v (appendMetric cutoff t m v tbl) =
      appendMetric cutoff t m v tbl ∧
    getMetricHistory
        ⟨appendMetric cutoff t m v (appendMetric cutoff t m v tbl), false⟩
        m cutoff =
      getMetricHistory ⟨appendMetric cutoff t m v tbl, false⟩ m cutoff ∧
    lookupMetric t m (insertOrReplace t m w (insertOrReplace t m v tbl)) =
      some w ∧
    (insertOrReplace t m w (insertOrReplace t m v tbl)).length =
      (insertOrReplace t m v tbl).length := by
  have hmain : appendMetric cutoff t m v (appendMetric cutoff t m v tbl) =
      appendMetric cutoff t m v tbl := by
    unfold appendMetric retentionSweep insertOrReplace
    by_cases hct : cutoff ≤ t <;>
      simp only [List.filter_cons, decide_eq_true_eq, hct, if_true, if_false,
        decide_True, decide_False, Bool.and_self, Bool.not_true, Bool.not_false,
        decide_eq_false_iff_not, not_true_eq_false] <;>
      simp [hct] <;>
      (refine List.filter_congr fun a _ => ?_
       cases hca : decide (cutoff ≤ a.ts) <;>
         cases hpa : (!decide (a.ts = t) || !decide (a.name = m)) <;>
         simp [hca, hpa])
  refine ⟨hmain, by rw [hmain], ?_, ?_⟩
  · simp [lookupMetric, insertOrReplace, List.find?_cons]
  · simp [insertOrReplace, List.filter_cons]

/-- One row of the `cache` table (`src/db_manager.py` lines 68-74): columns
`key` (primary key), `data` (the JSON payload, kept opaque here), and
`updated_at`.  Times are rationals measured in hours. -/
structure CacheEntry where
  key : String
  data : String
  updatedAt : ℚ
deriving DecidableEq

/-- Embedding of `DBManager.set_cache` (`src/db_manager.py` lines 258-267):
`INSERT OR REPLACE INTO cache` keyed by `key`, stamped with the current
time. -/
def setCache (now : ℚ) (k d : String) (c : List CacheEntry) :
    List CacheEntry :=
  ⟨k, d, now⟩ :: c.filter fun e => e.key ≠ k

/-- Embedding of `SELECT data, updated_at FROM cache WHERE key = ?` (`src/db_manager.py`
lines 239-242). -/
def cacheLookup (k : String) (c : List CacheEntry) : Option (String × ℚ) :=
  (c.find? fun e => e.key = k).map fun e => (e.data, e.updatedAt)

/-- Python's `round(age_hours, 1)` (`src/db_manager.py` line 252), rounding
to one decimal place.  (Python rounds half to even; `round` here rounds half
up — the two agree except exactly halfway between tenths, which no claim
exercises.) -/
def round1 (q : ℚ) : ℚ := (round (10 * q) : ℤ) / 10

/-- Embedding of `DBManager.get_cache` (`src/db_manager.py` lines 231-256): look the key
up; if the entry's age in hours is strictly below the caller's TTL return
`(data, round(age, 1))`, otherwise `(None, None)`.  The method only ever
SELECTs — no DELETE is issued for a stale entry.  JSON decoding of the
stored payload is elided (the payload is stored as given). -/
def getCache (now : ℚ) (c : List CacheEntry) (k : String) (ttl : ℚ) :
    Option String × Option ℚ :=
  match cacheLookup k c with
  | none => (none, none)
  | some (d, up) =>
    if now - up < ttl then (some d, some (round1 (now - up))) else (none, none)

/-- C5: for a cache key holding an entry of age `now - up`, `get_cache`
returns the stored value with its (rounded) age exactly when the age is
strictly below the caller's TTL, and `(None, None)` otherwise; the miss
issues no delete, so the same state queried with a larger TTL that exceeds
the age still returns the value. -/
theorem getCache_ttl_boundary (c : List CacheEntry) (k d : String)
    (up now ttl ttl2 : ℚ) (h : cacheLookup k c = some (d, up)) :
    (now - up < ttl →
      getCache now c k ttl = (some d, some (round1 (now - up)))) ∧
    (ttl ≤ now - up → getCache now c k ttl = (none, none)) ∧
    (now - up < ttl2 →
      getCache now c k ttl2 = (some d, some (round1 (now - up)))) := by
  have hg : ∀ tl : ℚ, getCache now c k tl =
      if now - up < tl then (some d, some (round1 (now - up)))
      else (none, none) := by
    intro tl
    unfold getCache
    rw [h]
  exact ⟨fun ha => by rw [hg, if_pos ha],
    fun ha => by rw [hg, if_neg (not_lt.mpr ha)],
    fun ha => by rw [hg, if_pos ha]⟩

/-- Witness for C5: `set(k, v)` at hour 0; at hour 2 a TTL of 1 hour misses
with `(None, None)` while a TTL of 24 hours still returns `(v, 2.0)`. -/
theorem getCache_ttl_boundary_example :
    getCache 2 (setCache 0 "k" "v" []) "k" 1 = (none, none) ∧
      getCache 2 (setCache 0 "k" "v" []) "k" 24 = (some "v", some 2) := by
  have h : cacheLookup "k" (setCache 0 "k" "v" []) = some ("v", 0) := by
    decide
  have t := getCache_ttl_boundary (setCache 0 "k" "v" []) "k" "v" 0 2 1 24 h
  have e : round1 (2 - 0) = 2 := by
    norm_num [round1]
  refine ⟨t.2.1 (by norm_num), ?_⟩
  have := t.2.2 (by norm_num)
  rw [e] at this
  exact this

/-- Python's `\s` character class restricted to ASCII, as matched by
`re` against `pdfplumber` text. -/
def isSpaceChar (c : Char) : Bool :=
  c = ' ' || c = '\t' || c = '\n' || c = '\r' || c = '\x0b' || c = '\x0c'

/-- The `[0-9,]` character class of the date-row pattern. -/
def isNumChar (c : Char) : Bool := c.isDigit || c = ','

/-- First index (if any) whose suffix satisfies `p`; the backbone of
`str.find` and of the `re.finditer(r"CONTRACT:", text)` scan in
`src/cme_pdf_parser.py` lines 196-208. -/
def findWhere (p : List Char → Bool) : List Char → Option Nat
  | [] => if p [] then some 0 else none
  | c :: t => if p (c :: t) then some 0 else (findWhere p t).map (· + 1)

/-- Python `text.find(pat)`: index of the first occurrence of `pat`, `none`
for Python's `-1`. -/
def findSub (pat cs : List Char) : Option Nat :=
  findWhere (fun s => pat.isPrefixOf s) cs

/-- Python `pat in cs`. -/
def containsSub (pat cs : List Char) : Bool := (findSub pat cs).isSome

/-- The section-start marker literal of the MTD report. -/
def marker : List Char := "CONTRACT:".toList

/-- The target contract label checked on the marker's line. -/
def silverTarget : List Char := "SILVER FUTURES".toList

/-- The end-of-section delimiter literal. -/
def exchMarker : List Char := "EXCHANGE:".toList

/-- Embedding of `text[start:contract_line_end]` (`src/cme_pdf_parser.py` lines 200-205):
the characters from the marker up to, and excluding, the next newline (to
the end of text when no newline follows). -/
def lineTail (cs : List Char) : List Char := cs.takeWhile (· ≠ '\n')

/-- The acceptance test of `src/cme_pdf_parser.py` lines 197-208: the
suffix starts with `"CONTRACT:"` and the line from the marker onward
contains `"SILVER FUTURES"`. -/
def silverCond (cs : List Char) : Bool :=
  marker.isPrefixOf cs && containsSub silverTarget (lineTail cs)

/-- The silver-section extraction of `src/cme_pdf_parser.py` lines 196-223
(duplicated verbatim at lines 113-148 for `parse_mtd_deliveries`): take the
first `"CONTRACT:"` occurrence whose line tail mentions `"SILVER FUTURES"`;
the section runs from that marker to the first `"EXCHANGE:"` found at or
after the marker line's newline, or to the end of text when the line never
ends or no delimiter follows.  (Python's `text.find("EXCHANGE:", -1)` on a
newline-less tail scans only the final character and cannot match the
9-character delimiter, so that case also ends at end-of-text.) -/
def silverSection (text : List Char) : Option (List Char) :=
  match findWhere silverCond text with
  | none => none
  | some i =>
    let rest := text.drop i
    match findSub ['\n'] rest with
    | none => some rest
    | some e =>
      match findSub exchMarker (rest.drop e) with
      | none => some rest
      | some j => some (rest.take (e + j))

/-- Greedy maximal run of characters satisfying `p`, failing on an empty
run: the semantics of `\s+` and `[0-9,]+` here, where maximal munch is
exact because the neighbouring character classes are disjoint. -/
def matchRun (p : Char → Bool) (cs : List Char) :
    Option (List Char × List Char) :=
  let r := cs.takeWhile p
  if r.isEmpty then none else some (r, cs.drop r.length)

/-- Match one literal character. -/
def expectChar (c : Char) : List Char → Option (List Char)
  | [] => none
  | x :: t => if x = c then some t else none

/-- Match exactly `n` digits (`\d{4}` with `n = 4`). -/
def takeExactDigits : Nat → List Char → Option (List Char × List Char)
  | 0, cs => some ([], cs)
  | _ + 1, [] => none
  | n + 1, c :: t =>
    if c.isDigit then (takeExactDigits n t).map fun g => (c :: g.1, g.2)
    else none

/-- The candidate matches of greedy `\d{1,2}`, longest first (regex
backtracking order). -/
def d12 : List Char → List (List Char × List Char)
  | [] => []
  | [c] => if c.isDigit then [([c], [])] else []
  | c1 :: c2 :: t =>
    if c1.isDigit then
      if c2.isDigit then [([c1, c2], t), ([c1], c2 :: t)]
      else [([c1], c2 :: t)]
    else []

/-- First alternative that succeeds (regex alternation/backtracking). -/
def firstSome {α β : Type _} : List α → (α → Option β) → Option β
  | [], _ => none
  | a :: t, f =>
    match f a with
    | some b => some b
    | none => firstSome t f

/-- The three capture groups of one date-row match:
`(\d{1,2}/\d{1,2}/\d{4})`, `([0-9,]+)`, `([0-9,]+)`. -/
structure RawRow where
  date : List Char
  daily : List Char
  cum : List Char
deriving DecidableEq

/-- The `\s+([0-9,]+)\s+([0-9,]+)` tail of the date-row pattern. -/
def matchRowTail (dateChars r5 : List Char) : Option (RawRow × List Char) :=
  match matchRun isSpaceChar r5 with
  | none => none
  | some (_, r6) =>
    match matchRun isNumChar r6 with
    | none => none
    | some (n1, r7) =>
      match matchRun isSpaceChar r7 with
      | none => none
      | some (_, r8) =>
        match matchRun isNumChar r8 with
        | none => none
        | some (n2, r9) => some (⟨dateChars, n1, n2⟩, r9)

/-- An anchored match of the full date-row pattern
`(\d{1,2}/\d{1,2}/\d{4})\s+([0-9,]+)\s+([0-9,]+)` at the head of `cs`,
with regex backtracking over the two `\d{1,2}` widths. -/
def matchRowAt (cs : List Char) : Option (RawRow × List Char) :=
  firstSome (d12 cs) fun mo =>
    match expectChar '/' mo.2 with
    | none => none
    | some r2 =>
      firstSome (d12 r2) fun dy =>
        match expectChar '/' dy.2 with
        | none => none
        | some r4 =>
          match takeExactDigits 4 r4 with
          | none => none
          | some (yr, r5) =>
            matchRowTail (mo.1 ++ '/' :: dy.1 ++ '/' :: yr) r5

/-- The scan of `re.findall`: try an anchored match at each position, left
to right; on success continue after the match (matches never overlap), on
failure advance one character.  The fuel argument only bounds recursion;
`matchRowAt_consumes` and `findallAux_fuel` below show the initial fuel
`cs.length` never runs out. -/
def findallAux : Nat → List Char → List RawRow
  | 0, _ => []
  | _ + 1, [] => []
  | fuel + 1, c :: t =>
    match matchRowAt (c :: t) with
    | some (g, rest) => g :: findallAux fuel rest
    | none => findallAux fuel t

/-- Embedding of `re.findall(r"(\d{1,2}/\d{1,2}/\d{4})\s+([0-9,]+)\s+([0-9,]+)", cs)`
(`src/cme_pdf_parser.py` lines 233-236 and 159-162). -/
def findallRows (cs : List Char) : List RawRow := findallAux cs.length cs

theorem matchRun_lt (p : Char → Bool) (cs r rest : List Char)
    (h : matchRun p cs = some (r, rest)) : rest.length < cs.length := by
  unfold matchRun at h
  dsimp only at h
  split at h
  · exact absurd h (by simp)
  · rename_i hne
    rw [Option.some.injEq, Prod.mk.injEq] at h
    obtain ⟨rfl, rfl⟩ := h
    have h1 : (cs.takeWhile p).length ≤ cs.length := by
      simpa using (List.takeWhile_sublist p).length_le
    have h2 : 0 < (cs.takeWhile p).length := by
      rw [List.isEmpty_iff] at hne
      exact List.length_pos.mpr hne
    simp only [List.length_drop]
    omega

theorem expectChar_lt (c : Char) (cs rest : List Char)
    (h : expectChar c cs = some rest) : rest.length < cs.length := by
  cases cs with
  | nil => exact absurd h (by simp [expectChar])
  | cons x t =>
    simp only [expectChar] at h
    split at h
    · rw [Option.some.injEq] at h
      subst h
      simp
    · exact absurd h (by simp)

theorem takeExactDigits_le :
    ∀ (n : Nat) (cs g rest : List Char),
      takeExactDigits n cs = some (g, rest) → rest.length ≤ cs.length := by
  intro n
  induction n with
  | zero =>
    intro cs g rest h
    unfold takeExactDigits at h
    rw [Option.some.injEq, Prod.mk.injEq] at h
    obtain ⟨-, rfl⟩ := h
    exact le_refl _
  | succ k ih =>
    intro cs g rest h
    cases cs with
    | nil => exact absurd h (by simp [takeExactDigits])
    | cons c t =>
      unfold takeExactDigits at h
      split at h
      · cases hk : takeExactDigits k t with
        | none => rw [hk] at h; exact absurd h (by simp)
        | some pr =>
          obtain ⟨g2, r2⟩ := pr
          rw [hk] at h
          dsimp only [Option.map] at h
          rw [Option.some.injEq, Prod.mk.injEq] at h
          obtain ⟨-, rfl⟩ := h
          have := ih t g2 r2 hk
          simp only [List.length_cons]
          omega
      · exact absurd h (by simp)

theorem d12_mem_lt (cs g r : List Char) (h : (g, r) ∈ d12 cs) :
    r.length < cs.length := by
  cases cs with
  | nil => simp [d12] at h
  | cons c1 t =>
    cases t with
    | nil =>
      by_cases hd : c1.isDigit
      · simp only [d12, hd, if_true, List.mem_singleton, Prod.mk.injEq] at h
        obtain ⟨-, rfl⟩ := h
        simp
      · simp [d12, hd] at h
    | cons c2 t2 =>
      by_cases hd1 : c1.isDigit
      · by_cases hd2 : c2.isDigit
        · simp only [d12, hd1, hd2, if_true, List.mem_cons,
            List.mem_singleton, Prod.mk.injEq, List.not_mem_nil,
            or_false] at h
          rcases h with ⟨-, rfl⟩ | ⟨-, rfl⟩ <;> simp only [List.length_cons] <;>
            omega
        · simp only [d12, hd1, hd2, if_true, if_false, Bool.false_eq_true,
            List.mem_singleton, Prod.mk.injEq] at h
          obtain ⟨-, rfl⟩ := h
          simp
      · simp [d12, hd1] at h

theorem firstSome_eq_some {α β : Type _} (l : List α) (f : α → Option β)
    (b : β) (h : firstSome l f = some b) : ∃ a ∈ l, f a = some b := by
  induction l with
  | nil => simp [firstSome] at h
  | cons a t ih =>
    unfold firstSome at h
    cases hf : f a with
    | some b2 =>
      rw [hf] at h
      rw [Option.some.injEq] at h
      subst h
      exact ⟨a, by simp, hf⟩
    | none =>
      rw [hf] at h
      obtain ⟨a2, ha2, hf2⟩ := ih h
      exact ⟨a2, by simp [ha2], hf2⟩

theorem matchRowTail_lt (d r5 : List Char) (g : RawRow) (rest : List Char)
    (h : matchRowTail d r5 = some (g, rest)) : rest.length < r5.length := by
  unfold matchRowTail at h
  cases h1 : matchRun isSpaceChar r5 with
  | none => rw [h1] at h; exact absurd h (by simp)
  | some p1 =>
    obtain ⟨w1, r6⟩ := p1
    rw [h1] at h
    dsimp only at h
    cases h2 : matchRun isNumChar r6 with
    | none => rw [h2] at h; exact absurd h (by simp)
    | some p2 =>
      obtain ⟨n1, r7⟩ := p2
      rw [h2] at h
      dsimp only at h
      cases h3 : matchRun isSpaceChar r7 with
      | none => rw [h3] at h; exact absurd h (by simp)
      | some p3 =>
        obtain ⟨w2, r8⟩ := p3
        rw [h3] at h
        dsimp only at h
        cases h4 : matchRun isNumChar r8 with
        | none => rw [h4] at h; exact absurd h (by simp)
        | some p4 =>
          obtain ⟨n2, r9⟩ := p4
          rw [h4] at h
          dsimp only at h
          rw [Option.some.injEq, Prod.mk.injEq] at h
          obtain ⟨-, rfl⟩ := h
          have l1 := matchRun_lt _ _ _ _ h1
          have l2 := matchRun_lt _ _ _ _ h2
          have l3 := matchRun_lt _ _ _ _ h3
          have l4 := matchRun_lt _ _ _ _ h4
          omega

theorem matchRowAt_consumes (cs : List Char) (g : RawRow) (rest : List Char)
    (h : matchRowAt cs = some (g, rest)) : rest.length < cs.length := by
  unfold matchRowAt at h
  obtain ⟨mo, hmo, h⟩ := firstSome_eq_some _ _ _ h
  have lmo : mo.2.length < cs.length := d12_mem_lt cs mo.1 mo.2 (by simpa using hmo)
  cases h2 : expectChar '/' mo.2 with
  | none => rw [h2] at h; exact absurd h (by simp)
  | some r2 =>
    rw [h2] at h
    dsimp only at h
    have l2 := expectChar_lt _ _ _ h2
    obtain ⟨dy, hdy, h⟩ := firstSome_eq_some _ _ _ h
    have ldy : dy.2.length < r2.length := d12_mem_lt r2 dy.1 dy.2 (by simpa using hdy)
    cases h4 : expectChar '/' dy.2 with
    | none => rw [h4] at h; exact absurd h (by simp)
    | some r4 =>
      rw [h4] at h
      dsimp only at h
      have l4 := expectChar_lt _ _ _ h4
      cases h5 : takeExactDigits 4 r4 with
      | none => rw [h5] at h; exact absurd h (by simp)
      | some p5 =>
        obtain ⟨yr, r5⟩ := p5
        rw [h5] at h
        dsimp only at h
        have l5 := takeExactDigits_le _ _ _ _ h5
        have l6 := matchRowTail_lt _ _ _ _ h
        omega

theorem findallAux_fuel :
    ∀ (n fuel1 fuel2 : Nat) (cs : List Char), cs.length = n →
      n ≤ fuel1 → n ≤ fuel2 → findallAux fuel1 cs = findallAux fuel2 cs := by
  intro n
  induction n using Nat.strong_induction_on with
  | _ n ih =>
    intro fuel1 fuel2 cs hn h1 h2
    cases cs with
    | nil => cases fuel1 <;> cases fuel2 <;> rfl
    | cons c t =>
      have hn2 : t.length + 1 = n := by simpa using hn
      cases fuel1 with
      | zero => omega
      | succ f1 =>
        cases fuel2 with
        | zero => omega
        | succ f2 =>
          unfold findallAux
          cases hma : matchRowAt (c :: t) with
          | some pr =>
            obtain ⟨g, rest⟩ := pr
            have hlt := matchRowAt_consumes _ _ _ hma
            have hlt2 : rest.length < n := by simp at hlt; omega
            dsimp only
            rw [ih rest.length hlt2 f1 f2 rest rfl (by omega) (by omega)]
          | none =>
            dsimp only
            exact ih t.length (by omega) f1 f2 t rfl (by omega) (by omega)

/-- Python `s.replace(",", "")` on a matched `[0-9,]+` token
(`src/cme_pdf_parser.py` lines 247-248 and 167). -/
def removeCommas (cs : List Char) : List Char := cs.filter (· ≠ ',')

/-- Python `int(s)` on the comma-stripped token: defined on non-empty
all-digit strings, `None` standing for the `ValueError` raised otherwise
(reachable only from an all-comma `[0-9,]+` token). -/
def parseIntOpt (cs : List Char) : Option Nat :=
  if cs.isEmpty then none
  else if cs.all (·.isDigit) then
    some (cs.foldl (fun n c => 10 * n + (c.toNat - '0'.toNat)) 0)
  else none

/-- One entry of the `last_3_days` list (`src/cme_pdf_parser.py` lines
250-256): keys `intent_date`, `daily_total`, `total_cumulative`.  The
intent date is kept verbatim in the report's `MM/DD/YYYY` form. -/
structure DeliveryRow where
  intent_date : List Char
  daily_total : Nat
  total_cumulative : Nat
deriving DecidableEq

/-- Conversion of one regex match into a `DeliveryRow`
(`src/cme_pdf_parser.py` lines 245-256): strip thousands separators, then
integer-convert the daily and cumulative fields. -/
def rowToDelivery (r : RawRow) : Option DeliveryRow :=
  match parseIntOpt (removeCommas r.daily), parseIntOpt (removeCommas r.cum) with
  | some d, some c => some ⟨r.date, d, c⟩
  | _, _ => none

/-- The distinguishable outcomes of `parse_last_3_days_silver`:
`data rows` is the success dict; `errNotFound` is the error dict with
message "COMEX 5000 SILVER FUTURES contract not found"; `errNoData` is
the error dict with message "No delivery data found in COMEX 5000 SILVER
FUTURES section"; `errParse` is the `except` branch error dict. -/
inductive Last3Result where
  | data (rows : List DeliveryRow)
  | errNotFound
  | errNoData
  | errParse
deriving DecidableEq

/-- Embedding of `CMEDeliveryParser.parse_last_3_days_silver` on extracted report text
(`src/cme_pdf_parser.py` lines 189-262): locate the silver section, collect
all date-row matches, and convert the last three (`matches[-3:]`) to
`DeliveryRow`s. -/
def parse_last_3_days_silver (text : List Char) : Last3Result :=
  match silverSection text with
  | none => .errNotFound
  | some sec =>
    match findallRows sec with
    | [] => .errNoData
    | ms =>
      match (ms.drop (ms.length - 3)).mapM rowToDelivery with
      | some rows => .data rows
      | none => .errParse

/-- The distinguishable outcomes of `parse_mtd_deliveries`
(`src/cme_pdf_parser.py` lines 91-176): `res issued stopped found` is the
`mtd_data` dict (the `month` field, irrelevant to every claim here, is
elided); `errNotFound` is the error dict with message "No MTD silver
data found";
`errParse` is the `except` branch. -/
inductive MtdResult where
  | res (mtd_issued mtd_stopped : Nat) (found : Bool)
  | errNotFound
  | errParse
deriving DecidableEq

/-- Embedding of `CMEDeliveryParser.parse_mtd_deliveries` on extracted report text
(`src/cme_pdf_parser.py` lines 102-173): locate the silver section; with no
date-row match return the zero-initialised `mtd_data` (`found = False`,
not an error); otherwise set both `mtd_issued` and `mtd_stopped` to the
cumulative field of the last match. -/
def parse_mtd_deliveries (text : List Char) : MtdResult :=
  match silverSection text with
  | none => .errNotFound
  | some sec =>
    match findallRows sec with
    | [] => .res 0 0 false
    | m :: rest =>
      match parseIntOpt
          (removeCommas ((m :: rest).getLast (List.cons_ne_nil m rest)).cum) with
      | none => .errParse
      | some c => .res c c true

/-- Predicate: `pat` occurs in `text` at offset `k`. -/
def occursAt (pat text : List Char) (k : Nat) : Prop :=
  pat.isPrefixOf (text.drop k) = true

/-- The spec-level qualification of a section-start offset: the marker
matches there and the line from the marker onward mentions the target. -/
def silverHeadAt (text : List Char) (i : Nat) : Prop :=
  marker.isPrefixOf (text.drop i) = true ∧
    containsSub silverTarget (lineTail (text.drop i)) = true

theorem findWhere_eq_some (p : List Char → Bool) :
    ∀ (cs : List Char) (i : Nat), findWhere p cs = some i →
      p (cs.drop i) = true ∧ ∀ j < i, p (cs.drop j) = false := by
  intro cs
  induction cs with
  | nil =>
    intro i h
    unfold findWhere at h
    split at h
    · rw [Option.some.injEq] at h
      subst h
      refine ⟨by assumption, by omega⟩
    · exact absurd h (by simp)
  | cons c t ih =>
    intro i h
    unfold findWhere at h
    split at h
    · rw [Option.some.injEq] at h
      subst h
      refine ⟨by simpa using by assumption, by omega⟩
    · rename_i hfalse
      cases hft : findWhere p t with
      | none => rw [hft] at h; exact absurd h (by simp)
      | some i2 =>
        rw [hft] at h
        simp only [Option.map_some', Option.some.injEq] at h
        subst h
        obtain ⟨hp, hmin⟩ := ih i2 hft
        refine ⟨by simpa using hp, ?_⟩
        intro j hj
        cases j with
        | zero =>
          simpa using Bool.of_not_eq_true hfalse
        | succ j2 =>
          have := hmin j2 (by omega)
          simpa using this

theorem findWhere_eq_none (p : List Char → Bool) :
    ∀ cs : List Char, findWhere p cs = none →
      ∀ j, p (cs.drop j) = false := by
  intro cs
  induction cs with
  | nil =>
    intro h j
    unfold findWhere at h
    split at h
    · exact absurd h (by simp)
    · rename_i hfalse
      simpa [List.drop_nil] using Bool.of_not_eq_true hfalse
  | cons c t ih =>
    intro h j
    unfold findWhere at h
    split at h
    · exact absurd h (by simp)
    · rename_i hfalse
      cases hft : findWhere p t with
      | some i2 => rw [hft] at h; exact absurd h (by simp)
      | none =>
        cases j with
        | zero => simpa using Bool.of_not_eq_true hfalse
        | succ j2 => simpa using ih hft j2

/-- Modelled from the spec's words (for comparison with the code): the full
single line containing offset `i` — from the character after the previous
newline through the character before the next newline. -/
def containingLine (cs : List Char) (i : Nat) : List Char :=
  ((cs.take i).reverse.takeWhile (· ≠ '\n')).reverse ++
    (cs.drop i).takeWhile (· ≠ '\n')

/-- Modelled from the spec's words: the first `"CONTRACT:"` marker offset
whose *containing line* (not merely the line tail from the marker) mentions
the target contract. -/
def specSilverStart (cs : List Char) : Option Nat :=
  (List.range cs.length).find? fun i =>
    marker.isPrefixOf (cs.drop i) && containsSub silverTarget (containingLine cs i)

/-- A document whose first marker's containing line mentions the target
only *before* the marker. -/
def oddDoc : List Char := "SILVER FUTURES CONTRACT: GOLD\nother".toList

/-- C6 counterexample: in `oddDoc` the single line containing the
`"CONTRACT:"` marker (offset 15) contains `"SILVER FUTURES"`, so under the
claim that marker starts the extracted section; the code checks only the
line from the marker onward (`text[start:contract_line_end]`), rejects it,
and extracts no section at all. -/
theorem silverSection_containing_line_cex :
    specSilverStart oddDoc = some 15 ∧ silverSection oddDoc = none :=
  ⟨by decide, by decide⟩

/-- C6 (amended): whenever a section is extracted, it begins at the first
`"CONTRACT:"` offset whose line, *from the marker onward*, contains
`"SILVER FUTURES"` (offsets failing that test never start a section), and
it ends at the first `"EXCHANGE:"` occurrence at or after that line's
newline — or at end-of-text when the line never ends or no such delimiter
follows. -/
theorem silverSection_bounds (text s : List Char)
    (h : silverSection text = some s) :
    ∃ i, silverHeadAt text i ∧ (∀ j < i, ¬ silverHeadAt text j) ∧
      (((∀ e, ¬ occursAt ['\n'] (text.drop i) e) ∧ s = text.drop i) ∨
       (∃ e, occursAt ['\n'] (text.drop i) e ∧
          (∀ e2 < e, ¬ occursAt ['\n'] (text.drop i) e2) ∧
          (((∀ j, ¬ occursAt exchMarker ((text.drop i).drop e) j) ∧
              s = text.drop i) ∨
           (∃ j, occursAt exchMarker ((text.drop i).drop e) j ∧
              (∀ j2 < j, ¬ occursAt exchMarker ((text.drop i).drop e) j2) ∧
              s = (text.drop i).take (e + j))))) := by
  unfold silverSection at h
  cases hfw : findWhere silverCond text with
  | none => rw [hfw] at h; exact absurd h (by simp)
  | some i =>
    rw [hfw] at h
    dsimp only at h
    obtain ⟨hp, hmin⟩ := findWhere_eq_some silverCond text i hfw
    rw [silverCond, Bool.and_eq_true] at hp
    refine ⟨i, ⟨hp.1, hp.2⟩, ?_, ?_⟩
    · intro j hj hcontra
      have htrue : silverCond (text.drop j) = true := by
        rw [silverCond, Bool.and_eq_true]
        exact ⟨hcontra.1, hcontra.2⟩
      rw [hmin j hj] at htrue
      exact Bool.false_ne_true htrue
    · cases hnl : findSub ['\n'] (text.drop i) with
      | none =>
        rw [hnl] at h
        dsimp only at h
        rw [Option.some.injEq] at h
        subst h
        left
        refine ⟨?_, rfl⟩
        intro e hocc
        rw [findSub] at hnl
        have := findWhere_eq_none _ _ hnl e
        rw [occursAt] at hocc
        rw [this] at hocc
        exact Bool.false_ne_true hocc
      | some e =>
        rw [hnl] at h
        dsimp only at h
        rw [findSub] at hnl
        obtain ⟨hpe, hmine⟩ := findWhere_eq_some _ _ _ hnl
        cases hex : findSub exchMarker ((text.drop i).drop e) with
        | none =>
          rw [hex] at h
          dsimp only at h
          rw [Option.some.injEq] at h
          subst h
          right
          refine ⟨e, hpe, ?_, Or.inl ⟨?_, rfl⟩⟩
          · intro e2 he2 hocc
            rw [occursAt] at hocc
            rw [hmine e2 he2] at hocc
            exact Bool.false_ne_true hocc
          · intro j hocc
            rw [findSub] at hex
            have := findWhere_eq_none _ _ hex j
            rw [occursAt] at hocc
            rw [this] at hocc
            exact Bool.false_ne_true hocc
        | some j =>
          rw [hex] at h
          dsimp only at h
          rw [Option.some.injEq] at h
          subst h
          right
          rw [findSub] at hex
          obtain ⟨hpj, hminj⟩ := findWhere_eq_some _ _ _ hex
          refine ⟨e, hpe, ?_, Or.inr ⟨j, hpj, ?_, rfl⟩⟩
          · intro e2 he2 hocc
            rw [occursAt] at hocc
            rw [hmine e2 he2] at hocc
            exact Bool.false_ne_true hocc
          · intro j2 hj2 hocc
            rw [occursAt] at hocc
            rw [hminj j2 hj2] at hocc
            exact Bool.false_ne_true hocc

/-- MTD report text realising the spec's found-with-data example:
`"CONTRACT: MARCH 2026 COMEX 5000 SILVER FUTURES ... 01/05/2026 1,200
45,000 ... EXCHANGE: COMEX"`. -/
def mtdDoc : List Char :=
  ("CONTRACT: MARCH 2026 COMEX 5000 SILVER FUTURES\n" ++
   "INTENT DATE DAILY TOTAL CUMULATIVE\n" ++
   "01/05/2026 1,200 45,000\n" ++
   "EXCHANGE: COMEX").toList

/-- The silver section the code extracts from `mtdDoc`. -/
def mtdDocSec : List Char :=
  ("CONTRACT: MARCH 2026 COMEX 5000 SILVER FUTURES\n" ++
   "INTENT DATE DAILY TOTAL CUMULATIVE\n" ++
   "01/05/2026 1,200 45,000\n").toList

/-- Witness for C6 (amended), at `mtdDoc`, whose extracted section is
`mtdDocSec`. -/
theorem silverSection_bounds_example :
    ∃ i, silverHeadAt mtdDoc i ∧ (∀ j < i, ¬ silverHeadAt mtdDoc j) ∧
      (((∀ e, ¬ occursAt ['\n'] (mtdDoc.drop i) e) ∧
          mtdDocSec = mtdDoc.drop i) ∨
       (∃ e, occursAt ['\n'] (mtdDoc.drop i) e ∧
          (∀ e2 < e, ¬ occursAt ['\n'] (mtdDoc.drop i) e2) ∧
          (((∀ j, ¬ occursAt exchMarker ((mtdDoc.drop i).drop e) j) ∧
              mtdDocSec = mtdDoc.drop i) ∨
           (∃ j, occursAt exchMarker ((mtdDoc.drop i).drop e) j ∧
              (∀ j2 < j, ¬ occursAt exchMarker ((mtdDoc.drop i).drop e) j2) ∧
              mtdDocSec = (mtdDoc.drop i).take (e + j))))) :=
  silverSection_bounds mtdDoc mtdDocSec (by decide)

/-- C7: extracting the silver contract from `mtdDoc` yields exactly one
row, with intent date `01/05/2026` (the report's `MM/DD/YYYY` rendering of
2026-01-05), daily total `1200` and cumulative total `45000`; the
thousands separators of `1,200` and `45,000` are stripped before integer
conversion. -/
theorem parse_last3_found_with_data :
    parse_last_3_days_silver mtdDoc =
      .data [⟨"01/05/2026".toList, 1200, 45000⟩] ∧
    removeCommas "1,200".toList = "1200".toList ∧
    removeCommas "45,000".toList = "45000".toList :=
  ⟨by decide, by decide, by decide⟩

/-- Report text whose silver section heading is present but whose section
holds no date rows. -/
def emptyDoc : List Char :=
  ("CONTRACT: MARCH 2026 COMEX 5000 SILVER FUTURES\n" ++
   "NO ACTIVITY THIS PERIOD\n" ++
   "EXCHANGE: COMEX").toList

/-- The (row-free) silver section the code extracts from `emptyDoc`. -/
def emptyDocSec : List Char :=
  ("CONTRACT: MARCH 2026 COMEX 5000 SILVER FUTURES\n" ++
   "NO ACTIVITY THIS PERIOD\n").toList

/-- C3 counterexample: on `emptyDoc` the section heading is present and the
bounded section contains no date-row match, yet `parse_last_3_days_silver`
returns the error dict with message "No delivery data found in COMEX 5000
SILVER FUTURES section" — not a valid empty row list. -/
theorem parse_empty_section_cex :
    silverSection emptyDoc = some emptyDocSec ∧
    findallRows emptyDocSec = [] ∧
    parse_last_3_days_silver emptyDoc = .errNoData ∧
    parse_last_3_days_silver emptyDoc ≠ .data [] :=
  ⟨by decide, by decide, by decide, by decide⟩

/-- C3 (amended): when the section heading is present but the bounded
section contains no date-row matches, `parse_last_3_days_silver` returns
the dedicated no-data error (distinct from the not-found error), and
`parse_mtd_deliveries` returns its zero-initialised non-error result with
`found = False`. -/
theorem parse_section_no_rows (text sec : List Char)
    (h : silverSection text = some sec) (h2 : findallRows sec = []) :
    parse_last_3_days_silver text = .errNoData ∧
      parse_mtd_deliveries text = .res 0 0 false := by
  constructor
  · unfold parse_last_3_days_silver
    rw [h]
    dsimp only
    rw [h2]
  · unfold parse_mtd_deliveries
    rw [h]
    dsimp only
    rw [h2]

/-- Witness for C3 (amended) at `emptyDoc`. -/
theorem parse_section_no_rows_example :
    parse_last_3_days_silver emptyDoc = .errNoData ∧
      parse_mtd_deliveries emptyDoc = .res 0 0 false :=
  parse_section_no_rows emptyDoc emptyDocSec (by decide) (by decide)

/-- C10: whenever `parse_mtd_deliveries` finds the silver section and at
least one date row, both `mtd_issued` and `mtd_stopped` are set to the
cumulative-total field of the last matched row — the stopped count is
never extracted independently of the issued count. -/
theorem parse_mtd_issued_eq_stopped (text sec : List Char)
    (ms : List RawRow) (c : Nat)
    (h : silverSection text = some sec) (hm : findallRows sec = ms)
    (hne : ms ≠ [])
    (hc : parseIntOpt (removeCommas (ms.getLast hne).cum) = some c) :
    parse_mtd_deliveries text = .res c c true := by
  unfold parse_mtd_deliveries
  rw [h]
  dsimp only
  rw [hm]
  cases ms with
  | nil => exact absurd rfl hne
  | cons m rest =>
    dsimp only
    have hc2 : parseIntOpt (removeCommas
        ((m :: rest).getLast (List.cons_ne_nil m rest)).cum) = some c := hc
    rw [hc2]

/-- MTD report text with two date rows, cumulative totals 1,100 then
1,150. -/
def mtd2Doc : List Char :=
  ("CONTRACT: FEBRUARY 2026 COMEX 5000 SILVER FUTURES\n" ++
   "01/02/2026 100 1,100\n" ++
   "01/03/2026 50 1,150\n" ++
   "EXCHANGE: COMEX").toList

/-- The silver section the code extracts from `mtd2Doc`. -/
def mtd2Sec : List Char :=
  ("CONTRACT: FEBRUARY 2026 COMEX 5000 SILVER FUTURES\n" ++
   "01/02/2026 100 1,100\n" ++
   "01/03/2026 50 1,150\n").toList

/-- Witness for C10: on `mtd2Doc` both MTD fields equal the last row's
cumulative total 1150. -/
theorem parse_mtd_issued_eq_stopped_example :
    parse_mtd_deliveries mtd2Doc = .res 1150 1150 true :=
  parse_mtd_issued_eq_stopped mtd2Doc mtd2Sec (findallRows mtd2Sec) 1150
    (by decide) rfl (by decide) (by decide)

/-- Embedding of `task_hourly.fetch_comex_inventory` (`src/task_hourly.py` lines
423-471) with the network fetch and XLS parse as the oracle `live`
(`none` = the `try` body raised or found no usable totals).  The function
first reads the cache with a 24-hour TTL; a fresh cached value short
circuits unless `force`.  On live failure the Python fallback
`return cached, True if cached else (None, False)` parses as the pair
`(cached, True if cached else (None, False))`, so the second component is
a boolean `True` when a (TTL-fresh) cached value exists and the nested
pair `(None, False)` otherwise — modelled by the sum type below. -/
def fetch_comex_inventory (now : ℚ) (cache : List CacheEntry) (force : Bool)
    (live : Option String) :
    (Option String × (Bool ⊕ (Option String × Bool))) × List CacheEntry :=
  let cached := (getCache now cache "comex_inv" 24).1
  if cached.isSome && !force then ((cached, Sum.inl true), cache)
  else
    match live with
    | some d => ((some d, Sum.inl false), setCache now "comex_inv" d cache)
    | none =>
      ((cached,
        if cached.isSome then Sum.inl true else Sum.inr (none, false)), cache)

/-- Outcomes of `SilverDataFetcher.get_cme_data`: served from cache, served
live (after a write-through), or the error dict of the `except` branch. -/
inductive CmeResult where
  | fromCache (d : String)
  | live (d : String)
  | err
deriving DecidableEq

/-- Embedding of `SilverDataFetcher.get_cme_data` (`src/data_fetcher.py` lines 197-270)
with the fetch-and-parse as the oracle `liveData`.  Its file-based cache
(`_read_cache`/`_is_cache_valid`, TTL 1440 minutes = 24 hours) is
abstracted by the same keyed entry list.  A valid cache entry is returned
directly; otherwise a live success is written through and returned; a live
failure returns the error dict — there is no fallback to a stale cache
entry anywhere in the method. -/
def get_cme_data (now : ℚ) (cache : List CacheEntry)
    (liveData : Option String) : CmeResult × List CacheEntry :=
  match cacheLookup "cme_data" cache with
  | some du =>
    if now - du.2 < 24 then (.fromCache du.1, cache)
    else
      match liveData with
      | some l => (.live l, setCache now "cme_data" l cache)
      | none => (.err, cache)
  | none =>
    match liveData with
    | some l => (.live l, setCache now "cme_data" l cache)
    | none => (.err, cache)

/-- A cache whose `comex_inv` entry is present but 30 hours old — beyond
the 24-hour read TTL. -/
def staleCache : List CacheEntry := [⟨"comex_inv", "stale inventory", 0⟩]

/-- C8 counterexample: with the live fetch failing and a stale-but-present
`comex_inv` cache entry (age 30 h > TTL 24 h), `fetch_comex_inventory`
returns no value at all — the stale entry is not served, contradicting
"falls back to the last cached entry regardless of the entry's TTL". -/
theorem fetch_comex_inventory_stale_cex :
    cacheLookup "comex_inv" staleCache = some ("stale inventory", 0) ∧
      (fetch_comex_inventory 30 staleCache false none).1.1 = none := by
  constructor
  · decide
  · norm_num [fetch_comex_inventory, getCache, cacheLookup, staleCache]

/-- C8 (amended): when every live fetch fails, `fetch_comex_inventory`
returns exactly the TTL-respecting cache read — the value is present only
if the entry is younger than 24 hours, flagged `True` (degraded/cached)
when present and the junk pair `(None, False)` otherwise, the cache left
unmodified; and `get_cme_data` serves a TTL-valid cache entry or the error
dict, with no stale-cache fallback. -/
theorem fetch_fallback_respects_ttl (now : ℚ) (cache : List CacheEntry)
    (force : Bool) :
    fetch_comex_inventory now cache force none =
      (((getCache now cache "comex_inv" 24).1,
        if (getCache now cache "comex_inv" 24).1.isSome then Sum.inl true
        else Sum.inr (none, false)), cache) ∧
    get_cme_data now cache none =
      ((match cacheLookup "cme_data" cache with
        | some du => if now - du.2 < 24 then CmeResult.fromCache du.1
                     else CmeResult.err
        | none => CmeResult.err), cache) := by
  constructor
  · unfold fetch_comex_inventory
    by_cases hc : (getCache now cache "comex_inv" 24).1.isSome <;>
      cases force <;> simp [hc]
  · unfold get_cme_data
    cases h : cacheLookup "cme_data" cache with
    | none => rfl
    | some du =>
      by_cases ht : now - du.2 < 24 <;> simp [ht]

/-- C9 counterexample: a storage-layer fault during a read makes
`get_metric_history`, `get_metric_delta` and `get_latest_metric_value`
propagate the error — `get_metric_history` does not return the empty
result the claim promises. -/
theorem metric_read_fault_cex :
    getMetricHistory ⟨deltaExample, true⟩ "m" 0 = .error dbErr ∧
    getMetricHistory ⟨deltaExample, true⟩ "m" 0 ≠ .ok [] ∧
    getMetricDelta ⟨deltaExample, true⟩ "m" = .error dbErr ∧
    getLatestMetricValue ⟨deltaExample, true⟩ "m" = .error dbErr :=
  ⟨by decide, by decide, by decide, by decide⟩

/-- C9 (amended): the metric-store read operations contain no exception
handling: on any state whose storage layer faults, history, delta and
latest all propagate the storage error to the caller instead of returning
an empty result. -/
theorem metric_read_fault_propagates (tbl : List MetricRow) (m : String)
    (cutoff : Nat) :
    getMetricHistory ⟨tbl, true⟩ m cutoff = .error dbErr ∧
    getMetricDelta ⟨tbl, true⟩ m = .error dbErr ∧
    getLatestMetricValue ⟨tbl, true⟩ m = .error dbErr :=
  ⟨rfl, rfl, rfl⟩
